import Mathlib

/-!
# GuardLocker honey-encryption core: shallow embedding and verification

This file embeds the core of the GuardLocker honey-encrypted password vault
(`vault_transformer.py`, `honey_encoder.py`, `honey_vault_system.py`) in Lean 4
and proves or refutes the specification claims about it.

Modelling conventions:
* Python IEEE-754 floats are modelled by exact rationals (the `Frac` type
  below); `numpy` floor conversions (`int(x)`) are modelled by truncation
  toward zero.
* The neural distribution oracle (`model.predict_next_char`) is an external
  black box; it is modelled as a function parameter from contexts to
  probability vectors, as the spec's §4.2 oracle contract prescribes.
* Cryptographic randomness (`secrets.randbelow`, `secrets.choice`,
  `torch.multinomial`) is modelled by explicit RNG stream parameters.
* External crypto and serialization (PBKDF2, AES-GCM, `json`) are modelled as
  function parameters; theorems that need their round-trip behaviour take it
  as a hypothesis.
-/

set_option maxRecDepth 100000

namespace GuardLocker

/-- A vault symbol: the three reserved markers plus raw characters, mirroring
`VaultTokenizer.vocab = ['<SEP>', '<PAD>', '<UNK>'] ++ [chr(i) for i in range(32,127)]`.
`chr c` carries the raw code point (contexts in the Python code are plain
strings, so they can hold arbitrary raw characters). -/
inductive Sym where
  | SEP : Sym
  | PAD : Sym
  | UNK : Sym
  | chr : Nat → Sym
deriving DecidableEq

/-- `VaultTokenizer.vocab`: id 0 is `<SEP>`, 1 is `<PAD>`, 2 is `<UNK>`,
ids 3..97 are the 95 printable code points 32..126. -/
def vocab : List Sym :=
  [Sym.SEP, Sym.PAD, Sym.UNK] ++ (List.range 95).map (fun i => Sym.chr (i + 32))

/-- `VaultTokenizer.char_to_id` on a single character: the vocabulary dict
maps printable code point `c` (32..126) to `c - 32 + 3`; any other character
falls back to the `<UNK>` id 2 (`self.char_to_idx.get(char, self.char_to_idx['<UNK>'])`). -/
def charToId (c : Nat) : Nat :=
  if 32 ≤ c ∧ c ≤ 126 then c - 32 + 3 else 2

/-- `char_to_id('<SEP>')`: the marker string is itself a key of the dict, with id 0. -/
def sepId : Nat := 0

/-- `VaultTokenizer.id_to_char`: dict lookup with `<UNK>` as default
(`self.idx_to_char.get(idx, '<UNK>')`). -/
def idToChar (i : Nat) : Sym :=
  vocab.getD i Sym.UNK

/-- The Python text of a symbol: markers render as their 5-character tag,
characters as themselves (this is exactly what `id_to_char` returns as a
Python string). -/
def symText (s : Sym) : String :=
  match s with
  | Sym.SEP => "<SEP>"
  | Sym.PAD => "<PAD>"
  | Sym.UNK => "<UNK>"
  | Sym.chr c => String.singleton (Char.ofNat c)

/-- Python `len` of a symbol's text: marker tags have length 5, raw characters 1. -/
def symLen (s : Sym) : Nat :=
  match s with
  | Sym.SEP => 5
  | Sym.PAD => 5
  | Sym.UNK => 5
  | Sym.chr _ => 1

/-- Python string length of a decoded password buffer (`len(current_password)`):
marker text appended by `id_to_char` counts 5 characters. -/
def pyLen (pw : List Sym) : Nat :=
  (pw.map symLen).sum

/-- Render a symbol sequence as the Python string it joins to. -/
def render (pw : List Sym) : String :=
  String.join (pw.map symText)

/-- An exact rational value, used to model the IEEE-754 double computations of
the Python code (`numpy` cumulative sums, interval arithmetic). Fractions are
kept unnormalized — the denominator is positive for every value the embedding
constructs — so that all arithmetic is plain `Int`/`Nat` computation. -/
structure Frac where
  num : Int
  den : Nat

/-- The rational 0. -/
def Frac.zero : Frac := ⟨0, 1⟩

/-- The rational 1. -/
def Frac.one : Frac := ⟨1, 1⟩

/-- Embed a natural number. -/
def Frac.ofNat (n : Nat) : Frac := ⟨n, 1⟩

/-- Exact addition. -/
def Frac.add (a b : Frac) : Frac :=
  ⟨a.num * b.den + b.num * a.den, a.den * b.den⟩

/-- Exact subtraction. -/
def Frac.sub (a b : Frac) : Frac :=
  ⟨a.num * b.den - b.num * a.den, a.den * b.den⟩

/-- Exact multiplication. -/
def Frac.mul (a b : Frac) : Frac :=
  ⟨a.num * b.num, a.den * b.den⟩

/-- Exact division (callers never divide by zero). -/
def Frac.div (a b : Frac) : Frac :=
  if b.num < 0 then ⟨a.num * -(b.den : Int), a.den * b.num.natAbs⟩
  else ⟨a.num * b.den, a.den * b.num.natAbs⟩

/-- Comparison `a ≤ b` by cross-multiplication (denominators are positive). -/
def Frac.ble (a b : Frac) : Bool :=
  a.num * b.den ≤ b.num * a.den

/-- Comparison `a < b` by cross-multiplication (denominators are positive). -/
def Frac.blt (a b : Frac) : Bool :=
  a.num * b.den < b.num * a.den

/-- A distribution oracle (`model.predict_next_char`): context ↦ probability
vector over the 98-symbol vocabulary. Pure function of the context, per the
spec's §4.2 contract. -/
def Oracle : Type := List Sym → List Frac

/-- `np.cumsum` over a probability vector. -/
def cumsumList (l : List Frac) : List Frac :=
  go Frac.zero l
where
  go : Frac → List Frac → List Frac
    | _, [] => []
    | acc, x :: xs => (acc.add x) :: go (acc.add x) xs

/-- `np.searchsorted(cumsum, v, side='right')` on a sorted array: the first
index whose entry exceeds `v` (equal entries are passed over), or the length
if every entry is ≤ `v`. -/
def searchsortedRight (cums : List Frac) (v : Frac) : Nat :=
  cums.findIdx (fun c => v.blt c)

/-- `HoneyEncoder._get_cumulative_interval`: `(0 if id=0 else cumsum[id-1], cumsum[id])`.
Out-of-range indexing (an `IndexError` in Python) is modelled by default 0;
all call sites guard `char_id < len(probs)`. -/
def cumInterval (cid : Nat) (cums : List Frac) : Frac × Frac :=
  (if cid = 0 then Frac.zero else cums.getD (cid - 1) Frac.zero,
   cums.getD cid Frac.zero)

/-- Python `int(q)` on an exact rational: truncation toward zero
(`Int./` is T-division). -/
def pyInt (q : Frac) : Int :=
  q.num / (q.den : Int)

/-- `int(-np.log2 s)` for `0 < s < 1`: the exact floor of `log₂ (1/s)`, capped
(only values below 32 matter, the caller clamps at 32). Counts the
exponents `k+1 ≤ 40` with `2^(k+1) ≤ 1/s`. -/
def floorLog2Inv (s : Frac) : Nat :=
  (List.range 40).countP (fun k => (Frac.ofNat (2 ^ (k + 1))).ble (Frac.one.div s))

/-- The chunk-width policy of `HoneyEncoder._interval_to_seed`:
`bits = min(32, max(1, int(-log2(size)) + 1))`, with `size` clamped to
`epsilon = 1e-10` when nonpositive. For `size ≥ 1` the inner `int` is ≤ 0 and
the result is 1. -/
def bitsNeeded (size : Frac) : Nat :=
  let s := if size.ble Frac.zero then (⟨1, 10 ^ 10⟩ : Frac) else size
  if Frac.one.ble s then 1 else min 32 (floorLog2Inv s + 1)

/-- `HoneyEncoder._interval_to_seed`: pick the chunk width, map the interval to
`[int(start·2^b), int(end·2^b))`, widen an empty integer interval to one point,
and draw `secrets.randbelow(end - start) + start`. The random draw is modelled
by `r % (end - start)` with `r` supplied by the RNG stream. -/
def intervalToSeed (istart iend : Frac) (r : Nat) : Nat × Nat :=
  let size := iend.sub istart
  let bits := bitsNeeded size
  let space : Frac := Frac.ofNat (2 ^ bits)
  let sstart : Int := pyInt (istart.mul space)
  let send : Int := pyInt (iend.mul space)
  let send : Int := if send ≤ sstart then sstart + 1 else send
  let chunk : Int := sstart + (r % (send - sstart).toNat : Nat)
  (chunk.toNat, bits)

/-- One width attempt of `HoneyEncoder._seed_to_character`'s search loop:
extract the low `bits` bits (`seed & ((1<<bits)-1)`, i.e. `S mod 2^bits`),
locate the symbol by `searchsorted`, and verify the extracted value lies in
the symbol's integer sub-interval; on failure try the next width. -/
def stcLoop (S : Nat) (probs cums : List Frac) : List Nat → Option (Nat × Nat)
  | [] => none
  | bits :: rest =>
    let space : Frac := Frac.ofNat (2 ^ bits)
    let x : Nat := S % 2 ^ bits
    let q : Frac := (Frac.ofNat x).div space
    let cid := searchsortedRight cums q
    if cid < probs.length then
      let iv := cumInterval cid cums
      let sstart := pyInt (iv.1.mul space)
      let send := pyInt (iv.2.mul space)
      if sstart ≤ (x : Int) ∧ (x : Int) < send then some (cid, bits)
      else stcLoop S probs cums rest
    else stcLoop S probs cums rest

/-- `HoneyEncoder._seed_to_character`: try widths 1..32; if none verifies,
fall back to width 32 with the `searchsorted` result clamped to the last id. -/
def seedToCharacter (S : Nat) (probs : List Frac) : Nat × Nat :=
  let cums := cumsumList probs
  match stcLoop S probs cums ((List.range 32).map (· + 1)) with
  | some r => r
  | none =>
    let x : Nat := S % 2 ^ 32
    let q : Frac := (Frac.ofNat x).div (Frac.ofNat (2 ^ 32))
    let cid := searchsortedRight cums q
    (min cid (probs.length - 1), 32)

/-- Encoder state: accumulated seed value, bits used, context, RNG position.
The accumulation `seed_value = (seed_value << bits) | chunk` is written as
`seed_value * 2^bits + chunk`, which agrees with the Python bit-or whenever the
chunk fits in its width (true for any sub-probability interval). -/
def encodeChar (oracle : Oracle) (rng : Nat → Nat)
    (st : Nat × Nat × List Sym × Nat) (c : Nat) : Nat × Nat × List Sym × Nat :=
  let probs := oracle st.2.2.1
  let cums := cumsumList probs
  let iv := cumInterval (charToId c) cums
  let ch := intervalToSeed iv.1 iv.2 (rng st.2.2.2)
  (st.1 * 2 ^ ch.2 + ch.1, st.2.1 + ch.2, st.2.2.1 ++ [Sym.chr c], st.2.2.2 + 1)

/-- The separator step of `encode_vault` / `encode_incremental`: the code
appends `'<SEP>'` to the context and then queries the oracle on
`context[:-5]`, i.e. on the context as it was before the append. -/
def encodeSep (oracle : Oracle) (rng : Nat → Nat)
    (st : Nat × Nat × List Sym × Nat) : Nat × Nat × List Sym × Nat :=
  let probs := oracle st.2.2.1
  let cums := cumsumList probs
  let iv := cumInterval sepId cums
  let ch := intervalToSeed iv.1 iv.2 (rng st.2.2.2)
  (st.1 * 2 ^ ch.2 + ch.1, st.2.1 + ch.2, st.2.2.1 ++ [Sym.SEP], st.2.2.2 + 1)

/-- `seed_value.to_bytes(len, byteorder='big')`. -/
def natToBytesBE (len n : Nat) : List Nat :=
  match len with
  | 0 => []
  | l + 1 => natToBytesBE l (n / 256) ++ [n % 256]

/-- `int.from_bytes(bs, byteorder='big')`. -/
def fromBytesBE (bs : List Nat) : Nat :=
  bs.foldl (fun a b => a * 256 + b) 0

/-- `HoneyEncoder.encode_vault`: starting from context `['<SEP>']`, encode
each password character by character and a `<SEP>` after each password, then
emit `⌈bits/8⌉` big-endian bytes. Passwords are given as their code-point
lists (Python iterates strings character-wise). -/
def encodeVault (oracle : Oracle) (rng : Nat → Nat) (pws : List (List Nat)) : List Nat :=
  let st := pws.foldl
    (fun st pw => encodeSep oracle rng (pw.foldl (encodeChar oracle rng) st))
    ((0, 0, [Sym.SEP], 0) : Nat × Nat × List Sym × Nat)
  natToBytesBE ((st.2.1 + 7) / 8) st.1

/-- The decode loop of `HoneyEncoder.decode_seed`. `fuel` counts the remaining
iterations allowed by `chars_decoded < max_total_length`; the loop also stops
once `len(passwords) ≥ max_passwords`. Returns the accumulated passwords and
the pending buffer. -/
def decodeGo (oracle : Oracle) (maxP : Nat) :
    Nat → Nat → List Sym → List Sym → List (List Sym) → List (List Sym) × List Sym
  | 0, _, _, cur, acc => (acc, cur)
  | fuel + 1, S, ctx, cur, acc =>
    if acc.length < maxP then
      let probs := oracle ctx
      let r := seedToCharacter S probs
      let S' := S / 2 ^ r.2
      let sym := idToChar r.1
      if sym = Sym.SEP then
        if cur = [] then
          decodeGo oracle maxP fuel S' (ctx ++ [Sym.SEP]) [] acc
        else
          decodeGo oracle maxP fuel S' (ctx ++ [Sym.SEP]) [] (acc ++ [cur])
      else
        let cur' := cur ++ [sym]
        if 25 < pyLen cur' then
          decodeGo oracle maxP fuel S' (ctx ++ [sym] ++ [Sym.SEP]) [] (acc ++ [cur'])
        else
          decodeGo oracle maxP fuel S' (ctx ++ [sym]) cur' acc
    else (acc, cur)

/-- `HoneyEncoder.decode_seed(seed, max_passwords, max_total_length)`:
read the seed as a big-endian integer and repeatedly extract symbols from its
low bits; flush the buffer on `<SEP>` or when it exceeds 25 characters; after
the loop, flush any nonempty remainder. -/
def decodeSeed (oracle : Oracle) (seed : List Nat) (maxP maxTotal : Nat) :
    List (List Sym) :=
  let r := decodeGo oracle maxP maxTotal (fromBytesBE seed) [Sym.SEP] [] []
  if r.2 = [] then r.1 else r.1 ++ [r.2]

/-- `HoneyEncoder.encode_incremental(old_seed, new_password, context)`: rebuild
the context string `'<SEP>' + '<SEP>'.join(context) + '<SEP>'`, encode only the
new password and its trailing separator, and append the new bytes to the old
seed. -/
def encodeIncremental (oracle : Oracle) (rng : Nat → Nat)
    (oldSeed : List Nat) (newPw : List Nat) (ctxPws : List (List Nat)) : List Nat :=
  let ctx : List Sym :=
    [Sym.SEP] ++ List.intercalate [Sym.SEP] (ctxPws.map (List.map Sym.chr)) ++ [Sym.SEP]
  let st := encodeSep oracle rng
    (newPw.foldl (encodeChar oracle rng) ((0, 0, ctx, 0) : Nat × Nat × List Sym × Nat))
  oldSeed ++ natToBytesBE ((st.2.1 + 7) / 8) st.1

/-- The uniform length-98 probability vector (the spec's §8 mock oracle,
context-independent). -/
def uniformOracle : Oracle := fun _ => List.replicate 98 (⟨1, 98⟩ : Frac)

/-- An RNG stream that always draws 0: `secrets.randbelow` returns 0, so the
encoder always picks the start of each integer sub-interval. -/
def rngZero : Nat → Nat := fun _ => 0

/-- An adversarial oracle putting all probability mass on the `<PAD>` id 1
(the decoder-bound claims quantify over every oracle). -/
def padOracle : Oracle := fun _ => (List.replicate 98 Frac.zero).set 1 Frac.one

/-! ## Vault model sampling (`VaultTransformer.generate_password`) -/

/-- `torch.multinomial(probs, 1)` is an external sampler; it is modelled by
inverse-CDF sampling of the categorical distribution: the uniform draw
`u ∈ [0,1)` supplied by the RNG stream selects the first index whose
cumulative probability exceeds `u`. -/
def multinomialDraw (probs : List Frac) (u : Frac) : Nat :=
  (cumsumList probs).findIdx (fun c => u.blt c)

/-- The generation loop of `VaultTransformer.generate_password`: up to
`max_length` (25) rounds, sample the next id, stop at `<SEP>`, otherwise
append the character and extend the context. Returns the password symbols and
the advanced RNG position. -/
def genPwGo (oracle : Oracle) (rng : Nat → Frac) :
    Nat → List Sym → List Sym → Nat → List Sym × Nat
  | 0, _, acc, pos => (acc, pos)
  | fuel + 1, ctx, acc, pos =>
    let probs := oracle ctx
    let idx := multinomialDraw probs (rng pos)
    let ch := idToChar idx
    if ch = Sym.SEP then (acc, pos + 1)
    else genPwGo oracle rng fuel (ctx ++ [ch]) (acc ++ [ch]) (pos + 1)

/-- `model.generate_password('<SEP>', tokenizer)` with default temperature 1.0,
no top-k / top-p filtering, and `max_length = 25`. -/
def generatePassword (oracle : Oracle) (rng : Nat → Frac) (pos : Nat) : List Sym × Nat :=
  genPwGo oracle rng 25 [Sym.SEP] [] pos

/-- An output entry of `decrypt_vault`: the Python dicts carry `website`,
`username`, `password`, and one of the optional flags `encrypted_with_honey` /
`is_honey_account` (absent keys are `none`). -/
structure OutEntry where
  website : String
  username : String
  password : String
  encryptedWithHoney : Option Bool := none
  isHoneyAccount : Option Bool := none
deriving DecidableEq

/-- The loop of `HoneyVault._generate_random_decoy_vault`: entry `i` gets the
fabricated identity `site{i+1}.com` / `user{i+1}` and a password freshly
sampled from the model; the RNG position threads through the calls. -/
def decoyGo (oracle : Oracle) (rng : Nat → Frac) :
    Nat → Nat → Nat → List OutEntry
  | 0, _, _ => []
  | k + 1, i, pos =>
    let r := generatePassword oracle rng pos
    { website := "site" ++ toString (i + 1) ++ ".com",
      username := "user" ++ toString (i + 1),
      password := render r.1,
      encryptedWithHoney := some true } :: decoyGo oracle rng k (i + 1) r.2

/-- `HoneyVault._generate_random_decoy_vault(password_count)`. -/
def decoyVault (oracle : Oracle) (rng : Nat → Frac) (count : Nat) : List OutEntry :=
  decoyGo oracle rng count 0 0

/-! ## Vault system (`honey_vault_system.py`) -/

/-- A caller-supplied password entry (`{'website': ..., 'username': ..., 'password': ...}`). -/
structure Entry where
  website : String
  username : String
  password : String
deriving DecidableEq

/-- A honey account as serialized into the sidecar
(`website`/`username`/`password`/`created_at`). -/
structure HAcct where
  website : String
  username : String
  password : String
  createdAt : String
deriving DecidableEq

/-- The `vault_data` dict serialized to the sidecar JSON by `encrypt_vault`. -/
structure VaultData where
  honeyEncryptedPasswords : List String
  plaintextEntries : List Entry
  honeyAccounts : List HAcct
deriving DecidableEq

/-- The outcome of `json.loads` on the sidecar bytes, as far as
`decrypt_vault` observes it: either a well-shaped vault object, or a JSON
value on which the reconstruction raises (`.get` on a non-object raises
`AttributeError`; ill-shaped nested fields raise similarly). Parse failure
itself is `none` in the parser parameter. -/
inductive JsonDoc where
  | parsed : VaultData → JsonDoc
  | notObject : JsonDoc
deriving DecidableEq

/-- `VaultMetadata` (timestamps omitted: they are taken from `datetime.now()`
and never influence the claims). -/
structure Metadata where
  salt : List Nat
  nonce : List Nat
  passwordCount : Nat
  hasHoneyAccounts : Bool
deriving DecidableEq

/-- A Python exception escaping `decrypt_vault` to the caller. -/
inductive PyErr where
  | attributeError : PyErr
deriving DecidableEq

/-- `HoneyVault.UNLIMITED_LOGIN_SITES`. -/
def unlimitedLoginSites : List String :=
  ["gaming-site.com", "forum-example.com"]

/-- Python `str.lower()`: character-wise lowercasing. -/
def pyLower (s : String) : String :=
  String.mk (s.data.map Char.toLower)

/-- `HoneyVault._should_use_honey_encryption`:
`website.lower() not in UNLIMITED_LOGIN_SITES`. -/
def shouldUseHoney (website : String) : Bool :=
  !(unlimitedLoginSites.contains (pyLower website))

/-- `string.ascii_letters + string.digits + string.punctuation` (94 characters),
the alphabet of `_generate_secure_random_password`, built from code points:
lowercase 97..122, uppercase 65..90, digits 48..57, punctuation 33..47,
58..64, 91..96, 123..126. -/
def pwAlphabet : List Char :=
  (((List.range 26).map (97 + ·)) ++ ((List.range 26).map (65 + ·)) ++
   ((List.range 10).map (48 + ·)) ++ ((List.range 15).map (33 + ·)) ++
   ((List.range 7).map (58 + ·)) ++ ((List.range 6).map (91 + ·)) ++
   ((List.range 4).map (123 + ·))).map Char.ofNat

/-- `HoneyVault._generate_secure_random_password(length=32)`: 32 independent
`secrets.choice(alphabet)` draws, modelled by RNG values reduced mod the
alphabet size. -/
def genRandomPassword (rng : Nat → Nat) (pos : Nat) : String :=
  String.mk ((List.range 32).map (fun j => pwAlphabet.getD (rng (pos + j) % pwAlphabet.length) ' '))

/-- The entry-splitting loop of `encrypt_vault`: honey-encrypted entries
contribute only their password (in order); every other entry has its password
replaced by a fresh random one and is collected into `plaintext_random`.
`pos` is the RNG position; each replacement consumes 32 draws. -/
def splitEntries (rng : Nat → Nat) : List Entry → Nat → List String × List Entry
  | [], _ => ([], [])
  | e :: rest, pos =>
    if shouldUseHoney e.website then
      let r := splitEntries rng rest pos
      (e.password :: r.1, r.2)
    else
      let e' := { e with password := genRandomPassword rng pos }
      let r := splitEntries rng rest (pos + 32)
      (r.1, e' :: r.2)

/-- The caller-visible state of the entry list after `encrypt_vault`
(the code mutates non-honey entries in place via `entry['password'] = random_pwd`). -/
def mutateEntries (rng : Nat → Nat) : List Entry → Nat → List Entry
  | [], _ => []
  | e :: rest, pos =>
    if shouldUseHoney e.website then
      e :: mutateEntries rng rest pos
    else
      { e with password := genRandomPassword rng pos } :: mutateEntries rng rest (pos + 32)

/-- The `vault_data` dict built by `encrypt_vault`. -/
def mkVaultData (rngPw : Nat → Nat) (entries : List Entry) (hAccts : List HAcct) : VaultData :=
  { honeyEncryptedPasswords := (splitEntries rngPw entries 0).1,
    plaintextEntries := (splitEntries rngPw entries 0).2,
    honeyAccounts := hAccts }

/-- A Python string as the code-point list the encoder iterates over. -/
def strToCodes (s : String) : List Nat :=
  s.toList.map Char.toNat

/-- `len(seed).to_bytes(4, byteorder='big')`. -/
def toBytesBE4 (n : Nat) : List Nat :=
  [n / 2 ^ 24 % 256, n / 2 ^ 16 % 256, n / 2 ^ 8 % 256, n % 256]

/-- The seed computed by `encrypt_vault`: `encode_vault` of the honey
passwords when there are any, else `b''`. -/
def seedOf (oracle : Oracle) (rngE rngPw : Nat → Nat) (entries : List Entry) : List Nat :=
  let hp := (splitEntries rngPw entries 0).1
  if hp = [] then [] else encodeVault oracle rngE (hp.map strToCodes)

/-- The AEAD plaintext assembled by `encrypt_vault`:
`seed_length(4 BE) ++ seed ++ json.dumps(vault_data)`, with the JSON encoder
abstracted as `jd`. -/
def encryptPayload (oracle : Oracle) (rngE rngPw : Nat → Nat)
    (jd : VaultData → List Nat) (entries : List Entry) (hAccts : List HAcct) : List Nat :=
  let seed := seedOf oracle rngE rngPw entries
  toBytesBE4 seed.length ++ seed ++ jd (mkVaultData rngPw entries hAccts)

/-- `HoneyVault.encrypt_vault`: derive the key, build the payload, AEAD-encrypt
it (`aesgcm.encrypt(nonce, plaintext, None)` abstracted as `aeadE`), and return
the ciphertext, the metadata, and the post-call state of the caller's entry
list (salt and nonce, drawn from `secrets.token_bytes`, are passed in). -/
def encryptVault (oracle : Oracle) (rngE rngPw : Nat → Nat)
    (dk : String → List Nat → List Nat)
    (aeadE : List Nat → List Nat → List Nat → List Nat)
    (jd : VaultData → List Nat)
    (entries : List Entry) (hAccts : List HAcct) (master : String)
    (salt nonce : List Nat) : List Nat × Metadata × List Entry :=
  (aeadE (dk master salt) nonce (encryptPayload oracle rngE rngPw jd entries hAccts),
   { salt := salt, nonce := nonce, passwordCount := entries.length,
     hasHoneyAccounts := hAccts ≠ [] },
   mutateEntries rngPw entries 0)

/-- The vault list reconstructed by `decrypt_vault`: honey-decoded entries with
identities fabricated from the index (`website{i+1}.com` / `user{i+1}`), then
the sidecar's plaintext entries flagged `encrypted_with_honey: False`, then
the honey accounts flagged `is_honey_account: True`. -/
def buildOut (hps : List (List Sym)) (vd : VaultData) : List OutEntry :=
  hps.enum.map (fun p =>
    { website := "website" ++ toString (p.1 + 1) ++ ".com",
      username := "user" ++ toString (p.1 + 1),
      password := render p.2,
      encryptedWithHoney := some true })
  ++ vd.plaintextEntries.map (fun e =>
    { website := e.website, username := e.username, password := e.password,
      encryptedWithHoney := some false })
  ++ vd.honeyAccounts.map (fun a =>
    { website := a.website, username := a.username, password := a.password,
      isHoneyAccount := some true })

/-- `HoneyVault.decrypt_vault`: AEAD failure (`aeadD` returns `none`) and
sidecar-JSON parse failure (`jp` returns `none`) both fall back to the random
decoy vault; a payload whose JSON parses but is not a vault-shaped object
raises `AttributeError` at `vault_data.get` and escapes to the caller. The
seed slice is decoded with `max_passwords = metadata.password_count` and the
default `max_total_length = 1000` (the `try` around `decode_seed` never fires:
the decoder is total). -/
def decryptVault (oracle : Oracle) (rngQ : Nat → Frac)
    (dk : String → List Nat → List Nat)
    (aeadD : List Nat → List Nat → List Nat → Option (List Nat))
    (jp : List Nat → Option JsonDoc)
    (ct : List Nat) (master : String) (md : Metadata) : Except PyErr (List OutEntry) :=
  match aeadD (dk master md.salt) md.nonce ct with
  | none => Except.ok (decoyVault oracle rngQ md.passwordCount)
  | some pt =>
    let seedLen := fromBytesBE (pt.take 4)
    let seed := (pt.drop 4).take seedLen
    let vjson := pt.drop (4 + seedLen)
    match jp vjson with
    | none => Except.ok (decoyVault oracle rngQ md.passwordCount)
    | some JsonDoc.notObject => Except.error PyErr.attributeError
    | some (JsonDoc.parsed vd) =>
      let hps := if seed = [] then [] else decodeSeed oracle seed md.passwordCount 1000
      Except.ok (buildOut hps vd)

/-! ## Concrete instantiations shared by the claim theorems -/

/-- A concrete stand-in for the PBKDF2 key-derivation parameter. -/
def dkZero : String → List Nat → List Nat := fun _ _ => []

/-- An AEAD decryption that rejects every ciphertext (what AES-GCM does under
a wrong key). -/
def aeadRejectAll : List Nat → List Nat → List Nat → Option (List Nat) := fun _ _ _ => none

/-- An AEAD encryption/decryption pair with trivial (identity) transformation:
a valid instantiation of the abstract envelope for which every plaintext is
reachable from a ciphertext. -/
def aeadEId : List Nat → List Nat → List Nat → List Nat := fun _ _ p => p

/-- Identity AEAD decryption matching `aeadEId`. -/
def aeadDId : List Nat → List Nat → List Nat → Option (List Nat) := fun _ _ c => some c

/-- A JSON parser that fails on everything. -/
def jpNone : List Nat → Option JsonDoc := fun _ => none

/-- A JSON parser observing that the bytes `[91, 49, 93]` (the UTF-8 text
`[1]`) parse to a JSON array, which is not an object. -/
def jpListDoc : List Nat → Option JsonDoc :=
  fun bs => if bs = [91, 49, 93] then some JsonDoc.notObject else none

/-- Uniform RNG stream stuck at 0 (as a rational draw in [0,1)). -/
def rngQZero : Nat → Frac := fun _ => Frac.zero

/-- Uniform RNG stream stuck at 1/2. -/
def rngQHalf : Nat → Frac := fun _ => ⟨1, 2⟩

/-- Metadata with `password_count = 1`. -/
def mdOne : Metadata :=
  { salt := [], nonce := [], passwordCount := 1, hasHoneyAccounts := false }

/-- The identity RNG stream (draw `k` at position `k`). -/
def rngId : Nat → Nat := fun k => k

/-- A concrete one-entry vault: a honey-encrypted site. -/
def entriesW : List Entry :=
  [{ website := "github.com", username := "alice", password := "a" }]

/-- The same vault with the honey entry's website and username changed but the
password kept. -/
def entriesW2 : List Entry :=
  [{ website := "gitlab.com", username := "bob", password := "a" }]

/-- The vault data `encrypt_vault` builds from `entriesW` (no honey accounts). -/
def vdW : VaultData :=
  { honeyEncryptedPasswords := ["a"], plaintextEntries := [], honeyAccounts := [] }

/-- A trivial stand-in for `json.dumps`, paired with `jpW`. -/
def jdW : VaultData → List Nat := fun _ => [123]

/-- A stand-in for `json.loads` recovering `vdW` from `jdW`'s output. -/
def jpW : List Nat → Option JsonDoc :=
  fun bs => if bs = [123] then some (JsonDoc.parsed vdW) else none

/-- A two-entry vault: one unlimited-login site, one honey site. -/
def entriesU : List Entry :=
  [{ website := "gaming-site.com", username := "u", password := "orig" },
   { website := "github.com", username := "v", password := "keep" }]

/-- The same vault with the unlimited-login entry's (discarded) password
changed. -/
def entriesU2 : List Entry :=
  [{ website := "gaming-site.com", username := "u", password := "changed" },
   { website := "github.com", username := "v", password := "keep" }]

/-! ## C1: vault-level round trip -/

/-- C1: the vault-level round trip `decode_seed(encode_vault(P))` (restricted
to `|P|` passwords) fails on the code. Concrete failing input: the uniform
oracle at both ends, the RNG fixed at the start of each interval, and
`P = ["a"]`: the encoder emits the chunks `(88, 7)` for `'a'` and `(0, 7)` for
`<SEP>` into the high and low bits of the 2-byte seed `[44, 0]`, but the
decoder consumes the *low* bits first and its integer-interval check rejects
the true widths, so it returns `["%"]` (code point 37), not `["a"]`. -/
theorem c1_vault_roundtrip_fails :
    decodeSeed uniformOracle (encodeVault uniformOracle rngZero [[97]]) 1 1000
        = [[Sym.chr 37]] ∧
    decodeSeed uniformOracle (encodeVault uniformOracle rngZero [[97]]) 1 1000
        ≠ [[Sym.chr 97]] := by
  constructor
  · decide
  · decide

/-! ## C3: per-symbol round trip of the interval codec -/

/-- C3: the per-symbol round trip fails on the code. Under the uniform
98-symbol distribution, the forward codec `_interval_to_seed` emits
`(v, b) = (88, 7)` for symbol id 68 (`'a'`), and the seed value 88 has low
7 bits equal to 88; but `_seed_to_character` on 88 under the same distribution
returns `(8, 10)` (symbol `'%'` with 10 bits), not `(68, 7)`: at width 7 the
check `x < int(R·2^7)` fails (88 is the floor of the upper bound 88.81…), and
a wrong symbol verifies first at width 10. -/
theorem c3_symbol_roundtrip_fails :
    intervalToSeed (cumInterval 68 (cumsumList (uniformOracle []))).1
        (cumInterval 68 (cumsumList (uniformOracle []))).2 0 = (88, 7) ∧
    88 % 2 ^ 7 = 88 ∧
    seedToCharacter 88 (uniformOracle []) = (8, 10) ∧
    ((8, 10) : Nat × Nat) ≠ (68, 7) := by
  refine ⟨by decide, by decide, by decide, by decide⟩

/-! ## C4: prefix-keeping incremental append -/

/-- C4: the prefix-keeping property fails on the code. With the uniform
oracle and the RNG fixed at interval starts, `encode_incremental` appends the
new password's bytes after the old seed (`[44,0] ++ [45,0]`), but decoding the
concatenation returns `["?", "\x60"]` (code points 63 and 96), not
`["a", "b"]`: the decoder reads the appended chunk's low bits first and its
width search misfires exactly as in C1. -/
theorem c4_incremental_roundtrip_fails :
    encodeIncremental uniformOracle rngZero
        (encodeVault uniformOracle rngZero [[97]]) [98] [[97]] = [44, 0, 45, 0] ∧
    decodeSeed uniformOracle [44, 0, 45, 0] 2 1000 = [[Sym.chr 63], [Sym.chr 96]] ∧
    decodeSeed uniformOracle [44, 0, 45, 0] 2 1000 ≠ [[Sym.chr 97], [Sym.chr 98]] := by
  refine ⟨by decide, by decide, by decide⟩

/-! ## C7: reserved-marker / forbidden-symbol rejection -/

/-- C7 counterexample: encoding a password containing the non-printable code
point 1 (`"a\x01b"`) does not fail: `char_to_id` silently maps it to the
`<UNK>` id 2 and `encode_vault` returns a seed (`[11, 0, 173, 0]` under the
uniform oracle with the RNG at interval starts). No `InvalidInput` error
exists anywhere on this code path. -/
theorem c7_no_rejection_counterexample :
    charToId 1 = 2 ∧ idToChar 2 = Sym.UNK ∧
    encodeVault uniformOracle rngZero [[97, 1, 98]] = [11, 0, 173, 0] := by
  refine ⟨rfl, by decide, by decide⟩

/-- C7 amended: every code point outside the 95 printable symbols 32..126 is
silently substituted by the reserved `<UNK>` token (id 2) and encoded under
its probability interval; encoding never raises. -/
theorem c7_unknown_chars_become_unk (c : Nat) (h : c < 32 ∨ 126 < c) :
    charToId c = 2 ∧ idToChar (charToId c) = Sym.UNK := by
  have hne : ¬(32 ≤ c ∧ c ≤ 126) := by omega
  have h2 : charToId c = 2 := by simp [charToId, hne]
  exact ⟨h2, by rw [h2]; decide⟩

/-- Witness for C7's amended theorem at the concrete code point 128169. -/
theorem c7_unknown_chars_become_unk_witness :
    (128169 < 32 ∨ 126 < 128169) ∧
    (charToId 128169 = 2 ∧ idToChar (charToId 128169) = Sym.UNK) :=
  ⟨Or.inr (by decide), c7_unknown_chars_become_unk 128169 (Or.inr (by decide))⟩

/-! ## C8: empty vault -/

/-- C8 counterexample: `encode_vault([])` returns the *empty* byte string —
the separator emission sits inside the per-password loop, so no `<SEP>` chunk
is ever encoded for an empty vault, refuting "a non-empty seed holding one
encoded chunk". -/
theorem c8_empty_vault_counterexample :
    encodeVault uniformOracle rngZero [] = [] := by decide

/-- C8 amended: for every oracle and RNG, `encode_vault([])` is the empty
seed (it encodes nothing, in particular no `<SEP>` terminator), and decoding
it with `max_passwords = 0` returns the empty list. -/
theorem c8_empty_vault_amended (oracle : Oracle) (rng : Nat → Nat) :
    encodeVault oracle rng [] = [] ∧
    decodeSeed oracle (encodeVault oracle rng []) 0 1000 = [] := by
  constructor
  · simp only [encodeVault, List.foldl_nil]
    rfl
  · rfl

/-! ## C6: decoder output bounds -/

/-- A decoded password holds no `<SEP>` symbol. -/
def noSepPw (pw : List Sym) : Bool :=
  pw.all (fun s => s != Sym.SEP)

/-- Invariant of the decode loop: the accumulator never exceeds
`max_passwords`; when it is full the pending buffer is empty; and no
accumulated password (nor the buffer) contains `<SEP>`. -/
lemma decodeGo_inv (oracle : Oracle) (k : Nat) :
    ∀ (fuel S : Nat) (ctx cur : List Sym) (acc : List (List Sym)),
      acc.length ≤ k → (acc.length = k → cur = []) →
      acc.all noSepPw = true → noSepPw cur = true →
      ((decodeGo oracle k fuel S ctx cur acc).1.length ≤ k ∧
       ((decodeGo oracle k fuel S ctx cur acc).1.length = k →
          (decodeGo oracle k fuel S ctx cur acc).2 = []) ∧
       (decodeGo oracle k fuel S ctx cur acc).1.all noSepPw = true ∧
       noSepPw (decodeGo oracle k fuel S ctx cur acc).2 = true) := by
  intro fuel
  induction fuel with
  | zero =>
    intro S ctx cur acc h1 h2 h3 h4
    exact ⟨h1, h2, h3, h4⟩
  | succ n ih =>
    intro S ctx cur acc h1 h2 h3 h4
    simp only [decodeGo]
    split
    · rename_i hlt
      split
      · split
        · exact ih _ _ _ _ h1 (fun _ => rfl) h3 rfl
        · refine ih _ _ _ _ ?_ (fun _ => rfl) ?_ rfl
          · simpa using hlt
          · simp only [List.all_append, h3, Bool.true_and, List.all_cons,
              List.all_nil, Bool.and_true]
            exact h4
      · rename_i hsym
        have hs : ((idToChar (seedToCharacter S (oracle ctx)).1) != Sym.SEP) = true := by
          simpa using hsym
        split
        · refine ih _ _ _ _ ?_ (fun _ => rfl) ?_ rfl
          · simpa using hlt
          · simp only [List.all_append, h3, Bool.true_and, List.all_cons,
              List.all_nil, Bool.and_true, noSepPw, Bool.and_eq_true] at h4 ⊢
            exact ⟨h4, hs⟩
        · refine ih _ _ _ _ h1 (fun hk => absurd hlt (by omega)) h3 ?_
          simp only [noSepPw, List.all_append, List.all_cons, List.all_nil,
            Bool.and_true, Bool.and_eq_true] at h4 ⊢
          exact ⟨h4, hs⟩
    · exact ⟨h1, h2, h3, h4⟩

/-- C6 counterexample: under an oracle that puts all its mass on the reserved
`<PAD>` symbol (the claim quantifies over *every* oracle; the trained model's
softmax also assigns positive mass to `<PAD>`/`<UNK>`), decoding the one-byte
seed `[0]` with `max_passwords = 1` produces the password `<PAD>×6` — the
output *does* contain a reserved marker, refuting the claim's second half. -/
theorem c6_reserved_marker_in_output :
    decodeSeed padOracle [0] 1 1000 = [List.replicate 6 Sym.PAD] ∧
    (decodeSeed padOracle [0] 1 1000).all
        (fun pw => pw.all (fun s => (s != Sym.PAD) && (s != Sym.UNK))) = false := by
  constructor
  · decide
  · decide

/-- C6 amended: for every byte string, every oracle and every bound `k`,
`decode_seed` returns at most `k` passwords and none of them contains the
`<SEP>` symbol; but the reserved `<PAD>`/`<UNK>` markers *can* occur in the
output (see the counterexample). -/
theorem c6_decode_bounds (oracle : Oracle) (seed : List Nat) (k maxTotal : Nat) :
    (decodeSeed oracle seed k maxTotal).length ≤ k ∧
    (decodeSeed oracle seed k maxTotal).all noSepPw = true := by
  obtain ⟨h1, h2, h3, h4⟩ := decodeGo_inv oracle k maxTotal (fromBytesBE seed)
    [Sym.SEP] [] [] (Nat.zero_le k) (fun _ => rfl) rfl rfl
  simp only [decodeSeed]
  split
  · exact ⟨h1, h3⟩
  · rename_i hne
    have hlen : (decodeGo oracle k maxTotal (fromBytesBE seed) [Sym.SEP] [] []).1.length ≠ k :=
      fun hk => hne (h2 hk)
    constructor
    · simp only [List.length_append, List.length_cons, List.length_nil]
      omega
    · simp only [List.all_append, h3, Bool.true_and, List.all_cons, List.all_nil,
        Bool.and_true]
      exact h4

/-! ## C5: decoy stability under a wrong master password -/

/-- C5 counterexample: decoy generation is *not* a deterministic function of
the envelope and the supplied key — it consumes fresh model-sampling
randomness (`torch.multinomial`) on every call. Two `decrypt_vault` calls on
the same envelope, same (wrong) master password and same metadata, but with
the ambient RNG in different states, return different vaults: the password of
the single decoy entry is `""` in one call and `"N"×25` in the other. -/
theorem c5_decoy_not_deterministic :
    decryptVault uniformOracle rngQZero dkZero aeadRejectAll jpNone [] "m" mdOne
      = Except.ok (decoyVault uniformOracle rngQZero 1) ∧
    decryptVault uniformOracle rngQHalf dkZero aeadRejectAll jpNone [] "m" mdOne
      = Except.ok (decoyVault uniformOracle rngQHalf 1) ∧
    decoyVault uniformOracle rngQZero 1 ≠ decoyVault uniformOracle rngQHalf 1 := by
  refine ⟨rfl, rfl, ?_⟩
  decide

/-- Shape of the decoy loop: entry `j` (counting from start index `i`) gets
website `site{i+j+1}.com` and username `user{i+j+1}`, whatever the RNG does. -/
lemma decoyGo_shape (oracle : Oracle) (rng : Nat → Frac) :
    ∀ (k i pos : Nat),
      (decoyGo oracle rng k i pos).length = k ∧
      (decoyGo oracle rng k i pos).map OutEntry.website
        = (List.range k).map (fun j => "site" ++ toString (i + j + 1) ++ ".com") ∧
      (decoyGo oracle rng k i pos).map OutEntry.username
        = (List.range k).map (fun j => "user" ++ toString (i + j + 1)) := by
  intro k
  induction k with
  | zero => intro i pos; simp [decoyGo]
  | succ n ih =>
    intro i pos
    obtain ⟨ih1, ih2, ih3⟩ := ih (i + 1) (generatePassword oracle rng pos).2
    refine ⟨by simp [decoyGo, ih1], ?_, ?_⟩
    · simp only [decoyGo, List.map_cons, ih2, List.range_succ_eq_map,
        List.map_map, List.cons.injEq]
      refine ⟨by trivial, ?_⟩
      refine List.map_congr_left (fun a _ => ?_)
      simp only [Function.comp, Nat.succ_eq_add_one]
      have h : i + 1 + a + 1 = i + (a + 1) + 1 := by omega
      rw [h]
    · simp only [decoyGo, List.map_cons, ih3, List.range_succ_eq_map,
        List.map_map, List.cons.injEq]
      refine ⟨by trivial, ?_⟩
      refine List.map_congr_left (fun a _ => ?_)
      simp only [Function.comp, Nat.succ_eq_add_one]
      have h : i + 1 + a + 1 = i + (a + 1) + 1 := by omega
      rw [h]

/-- C5 amended: the fabricated identities and the length of a decoy vault are
deterministic functions of the entry index and password count alone — entry
`i` is always `site{i+1}.com` / `user{i+1}` — while the decoy *passwords* are
freshly sampled from the model on each call (counterexample above). -/
theorem c5_decoy_shape_deterministic (oracle : Oracle) (rng : Nat → Frac) (n : Nat) :
    (decoyVault oracle rng n).length = n ∧
    (decoyVault oracle rng n).map OutEntry.website
      = (List.range n).map (fun i => "site" ++ toString (i + 1) ++ ".com") ∧
    (decoyVault oracle rng n).map OutEntry.username
      = (List.range n).map (fun i => "user" ++ toString (i + 1)) := by
  obtain ⟨h1, h2, h3⟩ := decoyGo_shape oracle rng n 0 0
  unfold decoyVault
  refine ⟨h1, ?_, ?_⟩
  · rw [h2]
    refine List.map_congr_left (fun a _ => ?_)
    have h : 0 + a + 1 = a + 1 := by omega
    rw [h]
  · rw [h3]
    refine List.map_congr_left (fun a _ => ?_)
    have h : 0 + a + 1 = a + 1 := by omega
    rw [h]

/-! ## C2: totality of `decrypt_vault` -/

/-- C2 counterexample: `decrypt_vault` is not total over inputs. When the
envelope opens (here: an identity AEAD instantiation, under which an attacker
or the legitimate key-holder can make any payload authentic) and the payload
declares a zero-length seed followed by the bytes `[1]` — valid JSON, but an
array rather than an object — `json.loads` succeeds and the subsequent
`vault_data.get('plaintext_entries', [])` raises `AttributeError`, which
escapes to the caller instead of being converted into a decoy. -/
theorem c2_decrypt_raises_counterexample :
    decryptVault uniformOracle rngQZero dkZero aeadDId jpListDoc
        [0, 0, 0, 0, 91, 49, 93] "master" mdOne
      = Except.error PyErr.attributeError := rfl

/-- C2 amended: `decrypt_vault` returns a vault (real or decoy) whenever the
AEAD rejects the ciphertext, or the sidecar JSON fails to parse, or it parses
to a vault-shaped object; AEAD failure and unparseable JSON are converted
internally into decoys. Only an authentic payload whose sidecar parses to
JSON that is not a vault-shaped object makes an error escape. -/
theorem c2_decrypt_total_on_wellformed (oracle : Oracle) (rngQ : Nat → Frac)
    (dk : String → List Nat → List Nat)
    (aeadD : List Nat → List Nat → List Nat → Option (List Nat))
    (jp : List Nat → Option JsonDoc)
    (ct : List Nat) (master : String) (md : Metadata)
    (h : aeadD (dk master md.salt) md.nonce ct = none ∨
         (∃ pt, aeadD (dk master md.salt) md.nonce ct = some pt ∧
            jp (pt.drop (4 + fromBytesBE (pt.take 4))) = none) ∨
         (∃ pt vd, aeadD (dk master md.salt) md.nonce ct = some pt ∧
            jp (pt.drop (4 + fromBytesBE (pt.take 4))) = some (JsonDoc.parsed vd))) :
    ∃ out, decryptVault oracle rngQ dk aeadD jp ct master md = Except.ok out := by
  unfold decryptVault
  rcases h with h | ⟨pt, hpt, hjp⟩ | ⟨pt, vd, hpt, hjp⟩
  · rw [h]
    exact ⟨_, rfl⟩
  · rw [hpt]
    simp only [hjp]
    exact ⟨_, rfl⟩
  · rw [hpt]
    simp only [hjp]
    exact ⟨_, rfl⟩

/-- Witness for C2's amended theorem: a rejecting AEAD (wrong master password)
on a concrete envelope yields a decoy vault. -/
theorem c2_decrypt_total_on_wellformed_witness :
    (aeadRejectAll (dkZero "m" mdOne.salt) mdOne.nonce [1, 2, 3] = none ∨
     (∃ pt, aeadRejectAll (dkZero "m" mdOne.salt) mdOne.nonce [1, 2, 3] = some pt ∧
        jpNone (pt.drop (4 + fromBytesBE (pt.take 4))) = none) ∨
     (∃ pt vd, aeadRejectAll (dkZero "m" mdOne.salt) mdOne.nonce [1, 2, 3] = some pt ∧
        jpNone (pt.drop (4 + fromBytesBE (pt.take 4))) = some (JsonDoc.parsed vd))) ∧
    (∃ out, decryptVault uniformOracle rngQZero dkZero aeadRejectAll jpNone
        [1, 2, 3] "m" mdOne = Except.ok out) :=
  ⟨Or.inl rfl,
   c2_decrypt_total_on_wellformed uniformOracle rngQZero dkZero aeadRejectAll jpNone
     [1, 2, 3] "m" mdOne (Or.inl rfl)⟩

/-! ## Payload parsing helpers -/

/-- Reading back a 4-byte big-endian length prefix. -/
lemma fromBytesBE_toBytesBE4 (n : Nat) (h : n < 2 ^ 32) :
    fromBytesBE (toBytesBE4 n) = n := by
  simp only [fromBytesBE, toBytesBE4, List.foldl_cons, List.foldl_nil]
  omega

/-- Parsing the payload `seed_len(4 BE) ++ seed ++ sidecar` recovers its three
components, provided the seed length fits the 4-byte prefix. -/
lemma payload_parse (seed rest : List Nat) (h : seed.length < 2 ^ 32) :
    fromBytesBE ((toBytesBE4 seed.length ++ seed ++ rest).take 4) = seed.length ∧
    ((toBytesBE4 seed.length ++ seed ++ rest).drop 4).take seed.length = seed ∧
    (toBytesBE4 seed.length ++ seed ++ rest).drop (4 + seed.length) = rest := by
  have h4 : (toBytesBE4 seed.length).length = 4 := rfl
  rw [List.append_assoc]
  refine ⟨?_, ?_, ?_⟩
  · rw [List.take_left' h4, fromBytesBE_toBytesBE4 _ h]
  · rw [List.drop_left' h4, List.take_left]
  · rw [← List.drop_drop, List.drop_left' h4, List.drop_left' rfl]

/-- `decrypt_vault` after a successful AEAD open: the remaining computation on
the recovered plaintext. -/
lemma decryptVault_some (oracle : Oracle) (rngQ : Nat → Frac)
    (dk : String → List Nat → List Nat)
    (aeadD : List Nat → List Nat → List Nat → Option (List Nat))
    (jp : List Nat → Option JsonDoc)
    (ct : List Nat) (master : String) (md : Metadata) (pt : List Nat)
    (hpt : aeadD (dk master md.salt) md.nonce ct = some pt) :
    decryptVault oracle rngQ dk aeadD jp ct master md =
      (match jp (pt.drop (4 + fromBytesBE (pt.take 4))) with
       | none => Except.ok (decoyVault oracle rngQ md.passwordCount)
       | some JsonDoc.notObject => Except.error PyErr.attributeError
       | some (JsonDoc.parsed vd) =>
         Except.ok (buildOut
           (if (pt.drop 4).take (fromBytesBE (pt.take 4)) = [] then []
            else decodeSeed oracle ((pt.drop 4).take (fromBytesBE (pt.take 4)))
              md.passwordCount 1000) vd)) := by
  unfold decryptVault
  rw [hpt]

/-- The honey segment of the reconstructed vault: websites are
`website{i+1}.com`, usernames `user{i+1}`. -/
lemma buildOut_take_fabricated (hps : List (List Sym)) (vd : VaultData) :
    ((buildOut hps vd).take hps.length).map OutEntry.website
      = (List.range hps.length).map (fun i => "website" ++ toString (i + 1) ++ ".com") ∧
    ((buildOut hps vd).take hps.length).map OutEntry.username
      = (List.range hps.length).map (fun i => "user" ++ toString (i + 1)) := by
  have hlen : (hps.enum.map (fun p =>
      ({ website := "website" ++ toString (p.1 + 1) ++ ".com",
         username := "user" ++ toString (p.1 + 1),
         password := render p.2,
         encryptedWithHoney := some true } : OutEntry))).length = hps.length := by
    rw [List.length_map, List.enum_length]
  unfold buildOut
  rw [List.append_assoc, List.take_left' hlen, List.map_map, List.map_map]
  constructor
  · have hcomp : (OutEntry.website ∘ fun p : Nat × List Sym =>
        ({ website := "website" ++ toString (p.1 + 1) ++ ".com",
           username := "user" ++ toString (p.1 + 1),
           password := render p.2,
           encryptedWithHoney := some true } : OutEntry))
        = (fun i => "website" ++ toString (i + 1) ++ ".com") ∘ Prod.fst := rfl
    rw [hcomp, ← List.map_map, List.enum_map_fst]
  · have hcomp : (OutEntry.username ∘ fun p : Nat × List Sym =>
        ({ website := "website" ++ toString (p.1 + 1) ++ ".com",
           username := "user" ++ toString (p.1 + 1),
           password := render p.2,
           encryptedWithHoney := some true } : OutEntry))
        = (fun i => "user" ++ toString (i + 1)) ∘ Prod.fst := rfl
    rw [hcomp, ← List.map_map, List.enum_map_fst]

/-! ## C9: honey entries lose their website and username -/

/-- `splitEntries` only reads the passwords of honey entries (and everything
of non-honey entries): related inputs split identically. -/
lemma splitEntries_congr (rng : Nat → Nat) :
    ∀ (l l' : List Entry), List.Forall₂ (fun a b =>
        (shouldUseHoney a.website = true ∧ shouldUseHoney b.website = true ∧
          a.password = b.password) ∨ a = b) l l' →
      ∀ pos, splitEntries rng l pos = splitEntries rng l' pos := by
  intro l l' hf
  induction hf with
  | nil => intro _; rfl
  | cons hab htail ih =>
    intro pos
    rcases hab with ⟨ha, hb, hpw⟩ | heq
    · simp only [splitEntries, ha, hb, if_true, hpw, ih pos]
    · subst heq
      simp only [splitEntries, ih]

/-- C9: (a) the AEAD payload assembled by `encrypt_vault` is unchanged when
the websites and usernames of honey-encrypted entries change (only their
passwords enter the payload); (b) decrypting the produced envelope with the
same master password reconstructs the honey entries with identities fabricated
from the entry index: `website{i+1}.com` / `user{i+1}`. -/
theorem c9_honey_identities_fabricated (oracle : Oracle) (rngE rngPw : Nat → Nat)
    (rngQ : Nat → Frac) (dk : String → List Nat → List Nat)
    (aeadE : List Nat → List Nat → List Nat → List Nat)
    (aeadD : List Nat → List Nat → List Nat → Option (List Nat))
    (jd : VaultData → List Nat) (jp : List Nat → Option JsonDoc)
    (entries : List Entry) (hAccts : List HAcct) (master : String)
    (salt nonce : List Nat)
    (hAead : ∀ k n p, aeadD k n (aeadE k n p) = some p)
    (hJson : jp (jd (mkVaultData rngPw entries hAccts))
        = some (JsonDoc.parsed (mkVaultData rngPw entries hAccts)))
    (hSeedLen : (seedOf oracle rngE rngPw entries).length < 2 ^ 32) :
    (∀ entries', List.Forall₂ (fun a b =>
        (shouldUseHoney a.website = true ∧ shouldUseHoney b.website = true ∧
          a.password = b.password) ∨ a = b) entries entries' →
      encryptPayload oracle rngE rngPw jd entries hAccts
        = encryptPayload oracle rngE rngPw jd entries' hAccts) ∧
    (∃ hps : List (List Sym),
      decryptVault oracle rngQ dk aeadD jp
          (encryptVault oracle rngE rngPw dk aeadE jd entries hAccts master salt nonce).1
          master
          (encryptVault oracle rngE rngPw dk aeadE jd entries hAccts master salt nonce).2.1
        = Except.ok (buildOut hps (mkVaultData rngPw entries hAccts)) ∧
      ((buildOut hps (mkVaultData rngPw entries hAccts)).take hps.length).map
          OutEntry.website
        = (List.range hps.length).map (fun i => "website" ++ toString (i + 1) ++ ".com") ∧
      ((buildOut hps (mkVaultData rngPw entries hAccts)).take hps.length).map
          OutEntry.username
        = (List.range hps.length).map (fun i => "user" ++ toString (i + 1))) := by
  constructor
  · intro entries' hf
    have hsp := splitEntries_congr rngPw entries entries' hf
    simp only [encryptPayload, seedOf, mkVaultData, hsp 0]
  · obtain ⟨hp1, hp2, hp3⟩ :=
      payload_parse (seedOf oracle rngE rngPw entries)
        (jd (mkVaultData rngPw entries hAccts)) hSeedLen
    have hP : encryptPayload oracle rngE rngPw jd entries hAccts
        = toBytesBE4 (seedOf oracle rngE rngPw entries).length
            ++ seedOf oracle rngE rngPw entries
            ++ jd (mkVaultData rngPw entries hAccts) := rfl
    have hct : (encryptVault oracle rngE rngPw dk aeadE jd entries hAccts master salt nonce).1
        = aeadE (dk master salt) nonce
            (encryptPayload oracle rngE rngPw jd entries hAccts) := rfl
    have hmd : (encryptVault oracle rngE rngPw dk aeadE jd entries hAccts master salt nonce).2.1
        = { salt := salt, nonce := nonce, passwordCount := entries.length,
            hasHoneyAccounts := hAccts ≠ [] } := rfl
    refine ⟨if seedOf oracle rngE rngPw entries = [] then []
            else decodeSeed oracle (seedOf oracle rngE rngPw entries) entries.length 1000,
           ?_, ?_⟩
    · rw [hct, hmd, decryptVault_some oracle rngQ dk aeadD jp
        (aeadE (dk master salt) nonce (encryptPayload oracle rngE rngPw jd entries hAccts))
        master
        { salt := salt, nonce := nonce, passwordCount := entries.length,
          hasHoneyAccounts := hAccts ≠ [] }
        (encryptPayload oracle rngE rngPw jd entries hAccts) (hAead _ _ _)]
      rw [hP, hp1, hp2, hp3, hJson]
    · exact buildOut_take_fabricated _ _

/-- Witness for C9 at a concrete vault: one honey entry `github.com`/`alice`
with password `"a"`, the identity AEAD, a trivial serializer, the uniform
oracle, and zero RNG streams. -/
theorem c9_honey_identities_fabricated_witness :
    (∀ k n p, aeadDId k n (aeadEId k n p) = some p) ∧
    jpW (jdW (mkVaultData rngId entriesW [])) =
      some (JsonDoc.parsed (mkVaultData rngId entriesW [])) ∧
    (seedOf uniformOracle rngZero rngId entriesW).length < 2 ^ 32 ∧
    (List.Forall₂ (fun a b =>
        (shouldUseHoney a.website = true ∧ shouldUseHoney b.website = true ∧
          a.password = b.password) ∨ a = b) entriesW entriesW2 ∧
      encryptPayload uniformOracle rngZero rngId jdW entriesW []
        = encryptPayload uniformOracle rngZero rngId jdW entriesW2 []) ∧
    (∃ hps : List (List Sym),
      decryptVault uniformOracle rngQZero dkZero aeadDId jpW
          (encryptVault uniformOracle rngZero rngId dkZero aeadEId jdW
            entriesW [] "m" [] []).1
          "m"
          (encryptVault uniformOracle rngZero rngId dkZero aeadEId jdW
            entriesW [] "m" [] []).2.1
        = Except.ok (buildOut hps (mkVaultData rngId entriesW [])) ∧
      ((buildOut hps (mkVaultData rngId entriesW [])).take hps.length).map
          OutEntry.website
        = (List.range hps.length).map (fun i => "website" ++ toString (i + 1) ++ ".com") ∧
      ((buildOut hps (mkVaultData rngId entriesW [])).take hps.length).map
          OutEntry.username
        = (List.range hps.length).map (fun i => "user" ++ toString (i + 1))) :=
  have hA : ∀ k n p, aeadDId k n (aeadEId k n p) = some p := fun _ _ _ => rfl
  have hJ : jpW (jdW (mkVaultData rngId entriesW [])) =
      some (JsonDoc.parsed (mkVaultData rngId entriesW [])) := by decide
  have hS : (seedOf uniformOracle rngZero rngId entriesW).length < 2 ^ 32 := by decide
  have hf : List.Forall₂ (fun a b =>
      (shouldUseHoney a.website = true ∧ shouldUseHoney b.website = true ∧
        a.password = b.password) ∨ a = b) entriesW entriesW2 :=
    List.Forall₂.cons (Or.inl ⟨by decide, by decide, rfl⟩) List.Forall₂.nil
  ⟨hA, hJ, hS,
   ⟨hf, (c9_honey_identities_fabricated uniformOracle rngZero rngId rngQZero dkZero
      aeadEId aeadDId jdW jpW entriesW [] "m" [] [] hA hJ hS).1 entriesW2 hf⟩,
   (c9_honey_identities_fabricated uniformOracle rngZero rngId rngQZero dkZero
      aeadEId aeadDId jdW jpW entriesW [] "m" [] [] hA hJ hS).2⟩

/-! ## C10: in-place replacement for unlimited-login sites -/

/-- The generated replacement password always has exactly 32 characters. -/
lemma genRandomPassword_length (rng : Nat → Nat) (pos : Nat) :
    (genRandomPassword rng pos).length = 32 := by
  simp [genRandomPassword, String.length]

/-- The post-call state of the caller's entry list: honey entries untouched,
every other entry with its password replaced by a generated 32-character one. -/
lemma mutateEntries_spec (rng : Nat → Nat) :
    ∀ (l : List Entry) (pos : Nat),
      List.Forall₂ (fun e o =>
        (shouldUseHoney e.website = true ∧ o = e) ∨
        (shouldUseHoney e.website = false ∧ o.website = e.website ∧
         o.username = e.username ∧ o.password.length = 32 ∧
         ∃ p, o.password = genRandomPassword rng p)) l (mutateEntries rng l pos) := by
  intro l
  induction l with
  | nil => intro _; exact List.Forall₂.nil
  | cons e rest ih =>
    intro pos
    cases hw : shouldUseHoney e.website with
    | true =>
      have hstep : mutateEntries rng (e :: rest) pos
          = e :: mutateEntries rng rest pos := by
        simp [mutateEntries, hw]
      rw [hstep]
      exact List.Forall₂.cons (Or.inl ⟨hw, rfl⟩) (ih pos)
    | false =>
      have hstep : mutateEntries rng (e :: rest) pos
          = { e with password := genRandomPassword rng pos }
              :: mutateEntries rng rest (pos + 32) := by
        simp [mutateEntries, hw]
      rw [hstep]
      exact List.Forall₂.cons
        (Or.inr ⟨hw, rfl, rfl, genRandomPassword_length rng pos, pos, rfl⟩)
        (ih (pos + 32))

/-- `splitEntries` ignores the original passwords of non-honey entries (they
are replaced before being stored): inputs agreeing on websites, usernames and
honey passwords split identically. -/
lemma splitEntries_congr_password (rng : Nat → Nat) :
    ∀ (l l' : List Entry), List.Forall₂ (fun a b =>
        a.website = b.website ∧ a.username = b.username ∧
        (shouldUseHoney a.website = true → a.password = b.password)) l l' →
      ∀ pos, splitEntries rng l pos = splitEntries rng l' pos := by
  intro l l' hf
  induction hf with
  | nil => intro _; rfl
  | cons hab htail ih =>
    intro pos
    rename_i a b l₁ l₂
    obtain ⟨hw, hu, hpw⟩ := hab
    cases hh : shouldUseHoney a.website with
    | true =>
      have hb : shouldUseHoney b.website = true := hw ▸ hh
      have e1 : splitEntries rng (a :: l₁) pos
          = (a.password :: (splitEntries rng l₁ pos).1,
             (splitEntries rng l₁ pos).2) := by
        simp [splitEntries, hh]
      have e2 : splitEntries rng (b :: l₂) pos
          = (b.password :: (splitEntries rng l₂ pos).1,
             (splitEntries rng l₂ pos).2) := by
        simp [splitEntries, hb]
      rw [e1, e2, hpw hh, ih pos]
    | false =>
      have hb : shouldUseHoney b.website = false := hw ▸ hh
      have e1 : splitEntries rng (a :: l₁) pos
          = ((splitEntries rng l₁ (pos + 32)).1,
             { a with password := genRandomPassword rng pos }
               :: (splitEntries rng l₁ (pos + 32)).2) := by
        simp [splitEntries, hh]
      have e2 : splitEntries rng (b :: l₂) pos
          = ((splitEntries rng l₂ (pos + 32)).1,
             { b with password := genRandomPassword rng pos }
               :: (splitEntries rng l₂ (pos + 32)).2) := by
        simp [splitEntries, hb]
      have hrec : ({ a with password := genRandomPassword rng pos } : Entry)
          = { b with password := genRandomPassword rng pos } := by
        cases a
        cases b
        dsimp only at hw hu
        subst hw
        subst hu
        rfl
      rw [e1, e2, ih (pos + 32), hrec]

/-- C10: `encrypt_vault` replaces, in the caller-visible entry list, the
password of every entry whose website is (case-insensitively) in
`UNLIMITED_LOGIN_SITES` with a freshly generated 32-character random password,
and leaves all other entries untouched; the original passwords of the replaced
entries influence neither the replacement nor the encrypted payload (they are
discarded, neither encrypted nor stored). -/
theorem c10_unlimited_sites_inplace_replacement (rngPw : Nat → Nat)
    (entries : List Entry) :
    List.Forall₂ (fun e o =>
      (shouldUseHoney e.website = true ∧ o = e) ∨
      (shouldUseHoney e.website = false ∧ o.website = e.website ∧
       o.username = e.username ∧ o.password.length = 32 ∧
       ∃ p, o.password = genRandomPassword rngPw p))
      entries (mutateEntries rngPw entries 0) ∧
    (∀ (oracle : Oracle) (rngE : Nat → Nat) (jd : VaultData → List Nat)
        (hAccts : List HAcct) (entries' : List Entry),
      List.Forall₂ (fun a b =>
        a.website = b.website ∧ a.username = b.username ∧
        (shouldUseHoney a.website = true → a.password = b.password))
        entries entries' →
      encryptPayload oracle rngE rngPw jd entries hAccts
        = encryptPayload oracle rngE rngPw jd entries' hAccts) := by
  constructor
  · exact mutateEntries_spec rngPw entries 0
  · intro oracle rngE jd hAccts entries' hf
    have hsp := splitEntries_congr_password rngPw entries entries' hf
    simp only [encryptPayload, seedOf, mkVaultData, hsp 0]

/-- Witness for C10 at a concrete two-entry vault: `gaming-site.com` is in the
unlimited-login set (password replaced), `github.com` is not (entry kept). -/
theorem c10_unlimited_sites_inplace_replacement_witness :
    (List.Forall₂ (fun e o =>
      (shouldUseHoney e.website = true ∧ o = e) ∨
      (shouldUseHoney e.website = false ∧ o.website = e.website ∧
       o.username = e.username ∧ o.password.length = 32 ∧
       ∃ p, o.password = genRandomPassword rngId p))
      entriesU (mutateEntries rngId entriesU 0)) ∧
    (List.Forall₂ (fun a b =>
        a.website = b.website ∧ a.username = b.username ∧
        (shouldUseHoney a.website = true → a.password = b.password))
        entriesU entriesU2 ∧
     encryptPayload uniformOracle rngZero rngId jdW entriesU []
        = encryptPayload uniformOracle rngZero rngId jdW entriesU2 []) :=
  have hf : List.Forall₂ (fun a b =>
      a.website = b.website ∧ a.username = b.username ∧
      (shouldUseHoney a.website = true → a.password = b.password))
      entriesU entriesU2 :=
    List.Forall₂.cons ⟨rfl, rfl, fun h => absurd h (by decide)⟩
      (List.Forall₂.cons ⟨rfl, rfl, fun _ => rfl⟩ List.Forall₂.nil)
  ⟨(c10_unlimited_sites_inplace_replacement rngId entriesU).1,
   hf,
   (c10_unlimited_sites_inplace_replacement rngId entriesU).2
      uniformOracle rngZero jdW [] entriesU2 hf⟩

end GuardLocker
